import Mathlib

/-!
Verification of the IAC recommendation dashboard front-end
(`src/App.tsx` and `src/DataVisualizer.tsx`).

The TypeScript source is shallowly embedded.  JS numbers appearing in the
relevant code paths are modelled as `ℚ`, with `Option ℚ` where a value may
be `NaN` (`none` models `NaN`).  `parseFloat` is modelled by `jsParseFloat`
(optional sign, integer digits, optional fractional digits, stopping at the
first character that does not fit; leading whitespace and exponents, which
never occur in this app's inputs, are not modelled).  React state updates
are modelled as explicit state-transition functions on an `AppState` record.
-/

/-- Value of a decimal digit character, `none` for a non-digit
(the digit class scanned by `parseFloat`; 48 and 57 are the codes
of the characters for zero and nine). -/
def digit? (c : Char) : Option ℕ :=
  if 48 ≤ c.toNat ∧ c.toNat ≤ 57 then some (c.toNat - 48) else none

/-- Take the longest prefix of decimal digits, returning their values
(big-endian) and the rest of the characters, as `parseFloat` scans. -/
def takeDigits : List Char → List ℕ × List Char
  | [] => ([], [])
  | c :: cs =>
    match digit? c with
    | some d => (d :: (takeDigits cs).1, (takeDigits cs).2)
    | none => ([], c :: cs)

/-- Strip an optional leading sign, as `parseFloat` does. -/
def splitSign : List Char → Bool × List Char
  | [] => (false, [])
  | c :: cs => if c = '-' then (true, cs) else if c = '+' then (false, cs) else (false, c :: cs)

/-- The scanning phase of `parseFloat`: sign, integer digits and fractional
digits of the longest numeric prefix; `none` (JS `NaN`) when there is no
digit at all. -/
def parseDec (s : String) : Option (Bool × List ℕ × List ℕ) :=
  match splitSign s.data with
  | (neg, cs1) =>
    match takeDigits cs1 with
    | (ids, cs2) =>
      let fds : List ℕ :=
        match cs2 with
        | '.' :: rest => (takeDigits rest).1
        | _ => []
      if ids = [] ∧ fds = [] then none else some (neg, ids, fds)

/-- Numeric value of a big-endian digit list. -/
def digitsVal (ds : List ℕ) : ℕ := ds.foldl (fun a d => 10 * a + d) 0

/-- Value of a fractional digit list (the digits after the decimal point). -/
def fracVal : List ℕ → ℚ
  | [] => 0
  | d :: ds => ((d : ℚ) + fracVal ds) / 10

/-- The value denoted by a scanned decimal. -/
def decValue (neg : Bool) (ids fds : List ℕ) : ℚ :=
  let v : ℚ := (digitsVal ids : ℚ) + fracVal fds
  if neg then -v else v

/-- Model of JavaScript `parseFloat` on the strings this app feeds it:
`none` models `NaN`. -/
def jsParseFloat (s : String) : Option ℚ :=
  (parseDec s).map (fun t => decValue t.1 t.2.1 t.2.2)

/-- Model of `s.replace(/[$,]/g, "")` from `numericFor` in `App.tsx`. -/
def stripDollarComma (s : String) : String :=
  String.mk (s.data.filter (fun c => !(c == '$' || c == ',')))

/-- Model of `v.replace(/[$,%]/g, "")` from `formatValue` in `DataVisualizer.tsx`. -/
def stripDollarCommaPercent (s : String) : String :=
  String.mk (s.data.filter (fun c => !(c == '$' || c == ',' || c == '%')))

theorem jsParseFloat_eq_some {s : String} {neg : Bool} {ids fds : List ℕ}
    (h : parseDec s = some (neg, ids, fds)) :
    jsParseFloat s = some (decValue neg ids fds) := by
  simp [jsParseFloat, h]

theorem jsParseFloat_eq_none {s : String} (h : parseDec s = none) :
    jsParseFloat s = none := by
  simp [jsParseFloat, h]

example : parseDec "12.5%" = some (false, [1, 2], [5]) := by decide
example : parseDec (stripDollarComma "$1,234") = some (false, [1, 2, 3, 4], []) := by decide
example : parseDec "" = none := by decide
example : parseDec "abc" = none := by decide
example : jsParseFloat "12.5%" = some (12.5 : ℚ) := by
  rw [jsParseFloat_eq_some (by decide : parseDec "12.5%" = some (false, [1, 2], [5]))]
  norm_num [decValue, digitsVal, fracVal]

/-- Big-endian base-10 digit extraction with structural fuel (so that the
kernel can evaluate it); `digitsFuel n n` is correct for every `n`. -/
def digitsFuel : ℕ → ℕ → List ℕ
  | 0, _ => []
  | _ + 1, 0 => []
  | fuel + 1, n + 1 => digitsFuel fuel ((n + 1) / 10) ++ [(n + 1) % 10]

/-- Big-endian base-10 digits of `n` (with `[0]` for `0`). -/
def natDigitsBE (n : ℕ) : List ℕ :=
  if n = 0 then [0] else digitsFuel n n

/-- Decimal digit characters of `n` (the plain rendering, no separators). -/
def natDigitChars (n : ℕ) : List Char := (natDigitsBE n).map Nat.digitChar

/-- Insert a comma after every three characters of a little-endian digit
list, the thousands grouping of the “$#,###” currency rendering read from
the right. -/
def groupRev : List Char → ℕ → List Char
  | [], _ => []
  | c :: cs, 0 => ',' :: c :: groupRev cs 2
  | c :: cs, k + 1 => c :: groupRev cs k

/-- The “$#,###” currency rendering of `n` (source comments on
`avgSavings` / `avgCost` in `App.tsx`): a dollar sign followed by the
decimal digits with thousands separators. -/
def currencyFormat (n : ℕ) : String :=
  String.mk ('$' :: (groupRev (natDigitChars n).reverse 3).reverse)

/-- The “##.#%” percentage rendering (source comment on
`implementationRate` in `App.tsx`): the whole part `w`, a decimal point,
one fractional digit `f` and a percent sign; it denotes `w + f/10`. -/
def percentFormat (w f : ℕ) : String :=
  String.mk (natDigitChars w ++ '.' :: Nat.digitChar f :: ['%'])

example : currencyFormat 1234 = "$1,234" := by decide
example : currencyFormat 1234567 = "$1,234,567" := by decide
example : currencyFormat 0 = "$0" := by decide
example : currencyFormat 123 = "$123" := by decide
example : percentFormat 12 5 = "12.5%" := by decide

/-- The five sortable columns (`OrderField` in `App.tsx`; the source uses
the display strings "Avg Savings", "Avg Cost", "Avg Payback", "Impl. Rate",
"Recommended"). -/
inductive OrderField
  | avgSavings
  | avgCost
  | avgPayback
  | implRate
  | recommended
deriving DecidableEq

/-- A JS value that is either a number or a string
(the `number | string` type of `avgPayback`). -/
inductive NumOrStr
  | num (q : ℚ)
  | str (s : String)
deriving DecidableEq

/-- One backend row (`interface Recommendation` in `App.tsx`). -/
structure Recommendation where
  arc : String
  description : String
  avgSavings : String
  avgCost : String
  avgPayback : NumOrStr
  implementationRate : String
  recommended : ℚ
  top : ℕ
deriving DecidableEq

/-- `numericFor` from `App.tsx`: the numeric sort value of the chosen
column (`none` models `NaN`).  `avgPayback.toString()` on a string is the
string itself, so that branch parses the string directly. -/
def numericFor (r : Recommendation) : OrderField → Option ℚ
  | .avgSavings => jsParseFloat (stripDollarComma r.avgSavings)
  | .avgCost => jsParseFloat (stripDollarComma r.avgCost)
  | .avgPayback =>
    match r.avgPayback with
    | .num q => some q
    | .str s => jsParseFloat s
  | .implRate => jsParseFloat r.implementationRate
  | .recommended => some r.recommended

/-- The value of the sort comparator `(a,b) => numericFor(b) - numericFor(a)`
after the coercion the JS sort applies to a comparator result: a `NaN`
result is treated as `+0`, so any comparison involving an unparseable
value is `0`. -/
def cmpDesc (ob : OrderField) (a b : Recommendation) : ℚ :=
  match numericFor b ob, numericFor a ob with
  | some vb, some va => vb - va
  | _, _ => 0

/-- `a` may stay before `b` under the descending comparator. -/
def leDesc (ob : OrderField) (a b : Recommendation) : Bool :=
  decide (cmpDesc ob a b ≤ 0)

/-- The sort key with `NaN` defaulted to `0`, used only to state
sortedness of lists all of whose members parse. -/
def keyD (ob : OrderField) (r : Recommendation) : ℚ :=
  (numericFor r ob).getD 0

/-- Stable insertion of `x` into a sorted list: `x` goes before the first
element it may precede (equal elements keep the earlier-processed one
first, as the ES2019 stable `Array.prototype.sort` does). -/
def insertLe {α : Type} (le : α → α → Bool) (x : α) : List α → List α
  | [] => [x]
  | y :: ys => if le x y then x :: y :: ys else y :: insertLe le x ys

/-- Stable sort by a Boolean comparator, the model of
`Array.prototype.sort` with the descending comparator. -/
def sortLe {α : Type} (le : α → α → Bool) : List α → List α
  | [] => []
  | x :: xs => insertLe le x (sortLe le xs)

/-- `.map((r,i) => ({...r, top: i+1}))` generalised over the first rank:
re-rank a list with consecutive `top` values starting at `i`. -/
def assignTop : ℕ → List Recommendation → List Recommendation
  | _, [] => []
  | i, r :: rs => { r with top := i } :: assignTop (i + 1) rs

/-- The component state of `App` (the `useState` cells the claims are
about).  Text inputs that the code coerces to numbers (`minSavings`,
`minCost`, with `""` meaning "no filter") are modelled already parsed as
`Option ℚ`; the dropdown values `showTop`, `minReco`, `pageSize` as `ℕ`. -/
structure AppState where
  centers : List String
  states : List String
  years : List ℕ
  center : String
  stateUS : String
  yearOp : String
  yearVal : String
  minSavings : Option ℚ
  minCost : Option ℚ
  showTop : ℕ
  orderBy : OrderField
  minReco : ℕ
  arcCode : String
  rows : List Recommendation
  filtered : List Recommendation
  pageSize : ℕ
  page : ℕ
  showGraph : Bool
  loading : Bool
  err : Option String
  graphCenter : String
  graphState : String
  graphTopCount : ℕ
deriving DecidableEq

/-- The initial `useState` values of `App`. -/
def initState : AppState where
  centers := []
  states := []
  years := []
  center := ""
  stateUS := ""
  yearOp := "="
  yearVal := ""
  minSavings := none
  minCost := none
  showTop := 10
  orderBy := .implRate
  minReco := 10
  arcCode := ""
  rows := []
  filtered := []
  pageSize := 10
  page := 1
  showGraph := false
  loading := false
  err := none
  graphCenter := ""
  graphState := ""
  graphTopCount := 10

/-- Outcome of the aggregates fetch as `fetchAggregates` sees it: a thrown
error (network or JSON failure) with its message, or a parsed response
`{success, error, data}`. -/
inductive AggOutcome
  | thrown (msg : String)
  | response (success : Bool) (error : Option String) (data : List Recommendation)

/-- Outcome of the filter-options fetch: a thrown error or a parsed
response `{success, error, centers, states, years}`. -/
inductive OptionsOutcome
  | thrown (msg : String)
  | response (success : Bool) (error : Option String)
      (centers : List String) (states : List String) (years : List ℕ)

/-- JS `a || b` on an optional string: the fallback is used when the field
is absent or the empty string (both falsy). -/
def jsOr (a : Option String) (b : String) : String :=
  match a with
  | some v => if v = "" then b else v
  | none => b

/-- One completed run of `fetchAggregates` in `App.tsx`: `success:false`
is thrown and caught like any other error; on success the data is sorted
descending by the current sort field and ranked `1..N`. -/
def fetchAggStep (o : AggOutcome) (s : AppState) : AppState :=
  match o with
  | .thrown m => { s with err := some m, loading := false }
  | .response success error data =>
    if success then
      let ranked := assignTop 1 (sortLe (leDesc s.orderBy) data)
      { s with
          rows := ranked, filtered := ranked, page := 1, showGraph := false
          err := none, loading := false }
    else { s with err := some (jsOr error "API error"), loading := false }

/-- One completed run of the `/filter-options` effect in `App.tsx`: any
error (thrown or `success:false`) is swallowed by the empty `catch`
(the "silent fallback"); on success the dropdown option lists are set. -/
def optionsFetchStep (o : OptionsOutcome) (s : AppState) : AppState :=
  match o with
  | .thrown _ => s
  | .response success _ centers states years =>
    if success then { s with centers := centers, states := states, years := years } else s

/-- The client-side chain of `handleSearch`:
filter by `recommended >= minReco`, by minimum savings, by minimum cost,
sort descending by the current field, keep the top `showTop`, re-rank. -/
def clientTransform (s : AppState) (l : List Recommendation) : List Recommendation :=
  assignTop 1
    ((sortLe (leDesc s.orderBy)
      (((l.filter (fun r => decide ((s.minReco : ℚ) ≤ r.recommended))).filter
        (fun r =>
          match s.minSavings with
          | none => true
          | some m =>
            match jsParseFloat (stripDollarComma r.avgSavings) with
            | some v => decide (m ≤ v)
            | none => false)).filter
        (fun r =>
          match s.minCost with
          | none => true
          | some m =>
            match jsParseFloat (stripDollarComma r.avgCost) with
            | some v => decide (m ≤ v)
            | none => false))).take s.showTop)

/-- One completed run of `handleSearch`: the awaited `fetchAggregates`
followed by the client-side filter/sort/slice/re-rank of the `filtered`
state it left behind. -/
def searchStep (o : AggOutcome) (s : AppState) : AppState :=
  let s1 := fetchAggStep o s
  { s1 with filtered := clientTransform s1 s1.filtered, page := 1, showGraph := false }

/-- `resetFilters` in `App.tsx`: every filter back to its default, the
table back to the last fetched rows. -/
def resetStep (s : AppState) : AppState :=
  { s with
      center := "", stateUS := "", yearOp := "=", yearVal := ""
      minSavings := none, minCost := none, showTop := 10
      orderBy := .implRate, minReco := 10, arcCode := ""
      filtered := s.rows, page := 1, showGraph := false }

/-- Changing the Order By dropdown (`onChange={e => setOrderBy(...)}`):
only the selected sort field changes. -/
def setOrderStep (f : OrderField) (s : AppState) : AppState :=
  { s with orderBy := f }

/-- The query parameters `handleSearch` appends to `URLSearchParams`, in
order: each appended only when its filter value is non-empty, the fiscal
year as operator concatenated with value, the arc code trimmed. -/
def buildQuery (s : AppState) : List (String × String) :=
  (if s.center ≠ "" then [("center", s.center)] else []) ++
  (if s.stateUS ≠ "" then [("state", s.stateUS)] else []) ++
  (if s.yearVal ≠ "" then [("fiscal_year", s.yearOp ++ s.yearVal)] else []) ++
  (if s.arcCode ≠ "" then [("arc", s.arcCode.trim)] else [])

/-- `Math.ceil(len / pageSize) || 1` from `App.tsx`. -/
def totalPages (len pageSize : ℕ) : ℕ :=
  let t := (len + pageSize - 1) / pageSize
  if t = 0 then 1 else t

/-- `filtered.slice((page-1)*pageSize, (page-1)*pageSize + pageSize)`. -/
def pageSlice (l : List Recommendation) (page pageSize : ℕ) : List Recommendation :=
  (l.drop ((page - 1) * pageSize)).take pageSize

/-- What `App` renders: the loading text, the error text in place of the
UI, or the main view (filters plus table or graph). -/
inductive Render
  | loadingView
  | errorText (msg : String)
  | mainView
deriving DecidableEq

/-- The render decision at the top of `App`'s JSX:
`if (loading) ...; if (err) return <p>{err}</p>; ...`. -/
def renderOf (s : AppState) : Render :=
  if s.loading then .loadingView
  else
    match s.err with
    | some m => .errorText m
    | none => .mainView

/-- The rank column is a dense, contiguous `1..N` sequence in list order. -/
def denseTop (l : List Recommendation) : Prop :=
  l.map (fun r => r.top) = List.range' 1 l.length

/-- The list is sorted descending by the numeric value of the field `ob`
(keys read through `keyD`). -/
def sortedKeysDesc (ob : OrderField) (l : List Recommendation) : Prop :=
  (l.map (keyD ob)).Chain' (fun a b => b ≤ a)

/-- The spec's rank invariant relative to a sort field. -/
def rankInvariant (ob : OrderField) (l : List Recommendation) : Prop :=
  denseTop l ∧ sortedKeysDesc ob l

/-- A field value of a chart record: a JS number (`nan` models `NaN`) or a
string.  The `ParameterValue` type itself lives in `../types/data`, which
is not among the repository's files; its shape is reconstructed from how
`DataVisualizer.tsx` uses it (`typeof v === 'number' ? v : v.replace(...)`). -/
inductive ParameterValue
  | num (q : ℚ)
  | nan
  | str (s : String)
deriving DecidableEq

/-- The five selectable chart parameters: `availableParameters` keeps every
key of a record except `year`, `description`, `arc` and `top`. -/
inductive Param
  | avgSavings
  | avgCost
  | avgPayback
  | implementationRate
  | recommended
deriving DecidableEq

/-- One chart input record (`PlantData` from `../types/data`, a file not in
the repository; fields reconstructed from use: the `Recommendation` fields
plus the `year` the year filters and tooltip read). -/
structure PlantData where
  arc : String
  description : String
  year : ℕ
  top : ℕ
  avgSavings : ParameterValue
  avgCost : ParameterValue
  avgPayback : ParameterValue
  implementationRate : ParameterValue
  recommended : ParameterValue
deriving DecidableEq

/-- Dynamic field read `item[selectedParameter]`. -/
def getParam (r : PlantData) : Param → ParameterValue
  | .avgSavings => r.avgSavings
  | .avgCost => r.avgCost
  | .avgPayback => r.avgPayback
  | .implementationRate => r.implementationRate
  | .recommended => r.recommended

/-- Dynamic field override `{...item, [selectedParameter]: v}`. -/
def setParam (r : PlantData) : Param → ParameterValue → PlantData
  | .avgSavings, v => { r with avgSavings := v }
  | .avgCost, v => { r with avgCost := v }
  | .avgPayback, v => { r with avgPayback := v }
  | .implementationRate, v => { r with implementationRate := v }
  | .recommended, v => { r with recommended := v }

/-- `formatValue` from `DataVisualizer.tsx`: a number is kept, a string is
stripped of `$`, `,`, `%` and parsed (an unparseable string gives `NaN`). -/
def formatValue : ParameterValue → ParameterValue
  | .num q => .num q
  | .nan => .nan
  | .str s =>
    match jsParseFloat (stripDollarCommaPercent s) with
    | some q => .num q
    | none => .nan

/-- `truncate` from `DataVisualizer.tsx` at its default width 15. -/
def truncate (s : String) : String :=
  if s.length > 15 then (s.take 15).push '…' else s

/-- One chart point: the spread of the source record with the selected
parameter replaced, plus `id` and `shortDescription`. -/
structure ChartPoint extends PlantData where
  id : ℕ
  shortDescription : String
deriving DecidableEq

/-- The chart point built from `item` at index `idx` (the body of the
`chartData` map). -/
def chartPoint (p : Param) (idx : ℕ) (item : PlantData) : ChartPoint :=
  { toPlantData := setParam item p (formatValue (getParam item p))
    id := idx + 1
    shortDescription := truncate item.description }

/-- The `chartData` map with its running index. -/
def chartAux (p : Param) : ℕ → List PlantData → List ChartPoint
  | _, [] => []
  | i, item :: rest => chartPoint p i item :: chartAux p (i + 1) rest

/-- `chartData` from `DataVisualizer.tsx`: the filtered records as
chart-ready points. -/
def chartDataF (fd : List PlantData) (p : Param) : List ChartPoint :=
  chartAux p 0 fd

/-- The year-filter mode (`YearFilter` from `../types/data`,
reconstructed from the three branches of the filter effect). -/
inductive YearFilter
  | all
  | single
  | custom

/-- A year range (`YearRange` from `../types/data`; the source field `end`
is a Lean keyword, so it is called `stop` here). -/
structure YearRange where
  start : ℕ
  stop : ℕ

/-- The `filteredData` state after the year-filter effect ran on `data`:
the effect returns early on an empty `data`, leaving the initial state
`[]`. -/
def filteredDataOf (data : List PlantData) (yf : YearFilter) (selYear : ℕ)
    (rg : YearRange) : List PlantData :=
  if data = [] then []
  else
    match yf with
    | .all => data
    | .single => data.filter (fun i => i.year == selYear)
    | .custom => data.filter (fun i => decide (rg.start ≤ i.year) && decide (i.year ≤ rg.stop))

/-- `NaN`-propagating running sum of `chartData.reduce((a,i) => a + i[p], 0)`:
adding `NaN` or a non-number poisons the sum. -/
def addPV : Option ℚ → ParameterValue → Option ℚ
  | some a, .num q => some (a + q)
  | _, _ => none

/-- The reduce of `avgValue`'s numerator. -/
def sumSel (pts : List ChartPoint) (p : Param) : Option ℚ :=
  pts.foldl (fun acc pt => addPV acc (getParam pt.toPlantData p)) (some 0)

/-- `avgValue` from `DataVisualizer.tsx`: the sum over the length; `none`
models the `NaN` a poisoned sum or the `0/0` of an empty dataset gives. -/
def avgValue (pts : List ChartPoint) (p : Param) : Option ℚ :=
  match sumSel pts p, pts.length with
  | some s, Nat.succ k => some (s / (k + 1 : ℕ))
  | _, _ => none

/-- `NaN`-propagating binary maximum, one step of `Math.max`. -/
def maxPV : Option ℚ → ParameterValue → Option ℚ
  | some a, .num q => some (max a q)
  | _, _ => none

/-- `highestValue` from `DataVisualizer.tsx`: `Math.max` over the selected
values; `none` models the `-Infinity` of an empty list or a `NaN` input. -/
def highestValue (pts : List ChartPoint) (p : Param) : Option ℚ :=
  match pts with
  | [] => none
  | pt :: rest =>
    (rest.map (fun q => getParam q.toPlantData p)).foldl maxPV
      (match getParam pt.toPlantData p with
        | .num q => some q
        | _ => none)

/-- What `DataVisualizer` renders: the no-data screen (the guard on an
empty `data`), the controls with no chart (empty `filteredData`), or the
chart with its stats. -/
inductive VizView
  | noData
  | controlsOnly
  | chart (points : List ChartPoint) (highest : Option ℚ) (avg : Option ℚ)

/-- The render decision of `DataVisualizer`: the `!data.length` guard, then
the chart only when `filteredData.length > 0`. -/
def vizRender (data : List PlantData) (p : Param) (yf : YearFilter)
    (selYear : ℕ) (rg : YearRange) : VizView :=
  if data = [] then .noData
  else
    let fd := filteredDataOf data yf selYear rg
    if fd = [] then .controlsOnly
    else
      .chart (chartDataF fd p) (highestValue (chartDataF fd p) p)
        (avgValue (chartDataF fd p) p)

theorem digit?_digitChar : ∀ d : ℕ, d < 10 → digit? (Nat.digitChar d) = some d := by decide

theorem takeDigits_append (ds : List ℕ) (hds : ∀ d ∈ ds, d < 10) (rest : List Char)
    (hrest : ∀ c cs, rest = c :: cs → digit? c = none) :
    takeDigits (ds.map Nat.digitChar ++ rest) = (ds, rest) := by
  induction ds with
  | nil =>
    simp only [List.map_nil, List.nil_append]
    cases rest with
    | nil => rfl
    | cons c cs => simp [takeDigits, hrest c cs rfl]
  | cons d ds ih =>
    have hd : digit? (Nat.digitChar d) = some d := digit?_digitChar d (hds d (by simp))
    have ih' := ih (fun x hx => hds x (by simp [hx]))
    simp [takeDigits, hd, ih']

theorem splitSign_cons_digit {c : Char} (h : digit? c ≠ none) (cs : List Char) :
    splitSign (c :: cs) = (false, c :: cs) := by
  have h1 : c ≠ '-' := by rintro rfl; exact h (by decide)
  have h2 : c ≠ '+' := by rintro rfl; exact h (by decide)
  simp [splitSign, h1, h2]

theorem digitsVal_append_singleton (A : List ℕ) (d : ℕ) :
    digitsVal (A ++ [d]) = 10 * digitsVal A + d := by
  simp [digitsVal, List.foldl_append]

theorem digitsFuel_spec : ∀ fuel n : ℕ, n ≤ fuel →
    digitsVal (digitsFuel fuel n) = n ∧ ∀ d ∈ digitsFuel fuel n, d < 10 := by
  intro fuel
  induction fuel with
  | zero =>
    intro n hn
    interval_cases n
    simp [digitsFuel, digitsVal]
  | succ f ih =>
    intro n hn
    match n with
    | 0 => simp [digitsFuel, digitsVal]
    | m + 1 =>
      have hlt : (m + 1) / 10 < m + 1 := Nat.div_lt_self (Nat.succ_pos m) (by norm_num)
      obtain ⟨h1, h2⟩ := ih ((m + 1) / 10) (by omega)
      refine ⟨?_, ?_⟩
      · show digitsVal (digitsFuel f ((m + 1) / 10) ++ [(m + 1) % 10]) = m + 1
        rw [digitsVal_append_singleton, h1]
        omega
      · intro d hd
        show d < 10
        rcases List.mem_append.mp hd with h | h
        · exact h2 d h
        · simp only [List.mem_singleton] at h
          omega

theorem digitsVal_natDigitsBE (n : ℕ) : digitsVal (natDigitsBE n) = n := by
  unfold natDigitsBE
  split
  · simp_all [digitsVal]
  · exact (digitsFuel_spec n n le_rfl).1

theorem natDigitsBE_lt (n : ℕ) : ∀ d ∈ natDigitsBE n, d < 10 := by
  unfold natDigitsBE
  split
  · intro d hd; simp only [List.mem_singleton] at hd; omega
  · exact (digitsFuel_spec n n le_rfl).2

theorem natDigitsBE_ne_nil (n : ℕ) : natDigitsBE n ≠ [] := by
  unfold natDigitsBE
  split
  · simp
  · match n, ‹n ≠ 0› with
    | m + 1, _ => simp [digitsFuel]

theorem takeDigits_natDigitChars (n : ℕ) (rest : List Char)
    (hrest : ∀ c cs, rest = c :: cs → digit? c = none) :
    takeDigits (natDigitChars n ++ rest) = (natDigitsBE n, rest) :=
  takeDigits_append (natDigitsBE n) (natDigitsBE_lt n) rest hrest

theorem splitSign_natDigitChars (n : ℕ) (rest : List Char) :
    splitSign (natDigitChars n ++ rest) = (false, natDigitChars n ++ rest) := by
  rcases hds : natDigitsBE n with _ | ⟨d, ds⟩
  · exact absurd hds (natDigitsBE_ne_nil n)
  · have hd : d < 10 := natDigitsBE_lt n d (by simp [hds])
    have : natDigitChars n = Nat.digitChar d :: ds.map Nat.digitChar := by
      simp [natDigitChars, hds]
    rw [this]
    exact splitSign_cons_digit (by simp [digit?_digitChar d hd]) _

theorem parseDec_natDigitChars (n : ℕ) :
    parseDec (String.mk (natDigitChars n)) = some (false, natDigitsBE n, []) := by
  have h2 : splitSign (natDigitChars n) = (false, natDigitChars n) := by
    simpa using splitSign_natDigitChars n []
  have h3 : takeDigits (natDigitChars n) = (natDigitsBE n, []) := by
    simpa using takeDigits_natDigitChars n [] (by simp)
  simp [parseDec, h2, h3, natDigitsBE_ne_nil n]

theorem parseDec_percentFormat (w f : ℕ) (hf : f < 10) :
    parseDec (percentFormat w f) = some (false, natDigitsBE w, [f]) := by
  have h1 : (percentFormat w f).data = natDigitChars w ++ '.' :: Nat.digitChar f :: ['%'] := rfl
  have h2 := splitSign_natDigitChars w ('.' :: Nat.digitChar f :: ['%'])
  have h3 := takeDigits_natDigitChars w ('.' :: Nat.digitChar f :: ['%'])
    (by intro c cs hc; cases hc; decide)
  have h4 : takeDigits ([f].map Nat.digitChar ++ ['%']) = ([f], ['%']) :=
    takeDigits_append [f] (by intro d hd; simp only [List.mem_singleton] at hd; omega) ['%']
      (by intro c cs hc; cases hc; decide)
  simp only [List.map_cons, List.map_nil, List.singleton_append] at h4
  simp [parseDec, h1, h2, h3, h4, natDigitsBE_ne_nil w]

theorem decValue_int (ds : List ℕ) : decValue false ds [] = (digitsVal ds : ℚ) := by
  simp [decValue, fracVal]

theorem decValue_onefrac (ds : List ℕ) (f : ℕ) :
    decValue false ds [f] = (digitsVal ds : ℚ) + f / 10 := by
  simp [decValue, fracVal]

theorem filter_groupRev (keep : Char → Bool) (hc : keep ',' = false) :
    ∀ (l : List Char) (k : ℕ), (groupRev l k).filter keep = l.filter keep := by
  intro l
  induction l with
  | nil => intro k; rfl
  | cons c cs ih =>
    intro k
    cases k with
    | zero => simp [groupRev, List.filter_cons, hc, ih 2]
    | succ k => simp [groupRev, List.filter_cons, ih k]

theorem keep_digitChar :
    ∀ d : ℕ, d < 10 → (fun c => !(c == '$' || c == ',')) (Nat.digitChar d) = true := by decide

theorem stripDollarComma_currencyFormat (n : ℕ) :
    stripDollarComma (currencyFormat n) = String.mk (natDigitChars n) := by
  unfold stripDollarComma currencyFormat
  congr 1
  show List.filter _ ('$' :: (groupRev (natDigitChars n).reverse 3).reverse) = _
  rw [List.filter_cons]
  simp only [show ((fun c => !(c == '$' || c == ',')) '$') = false from rfl, if_false]
  rw [show (groupRev (natDigitChars n).reverse 3).reverse
        = (groupRev (natDigitChars n).reverse 3).reverse from rfl,
    List.filter_reverse, filter_groupRev _ rfl, List.filter_reverse, List.reverse_reverse]
  exact List.filter_eq_self.mpr (by
    intro c hc
    simp only [natDigitChars, List.mem_map] at hc
    obtain ⟨d, hd, rfl⟩ := hc
    exact keep_digitChar d (natDigitsBE_lt n d hd))

/-- Round trip for the currency format: stripping the dollar sign and
commas and parsing recovers the encoded number (the `avgSavings` /
`avgCost` branches of `numericFor`). -/
theorem jsParseFloat_currency (n : ℕ) :
    jsParseFloat (stripDollarComma (currencyFormat n)) = some (n : ℚ) := by
  rw [stripDollarComma_currencyFormat, jsParseFloat_eq_some (parseDec_natDigitChars n),
    decValue_int, digitsVal_natDigitsBE]

/-- Round trip for the percentage format: `parseFloat` stops at the percent
sign and recovers the encoded value (the `implementationRate` branch of
`numericFor`, which does not strip). -/
theorem jsParseFloat_percent (w f : ℕ) (hf : f < 10) :
    jsParseFloat (percentFormat w f) = some ((w : ℚ) + f / 10) := by
  rw [jsParseFloat_eq_some (parseDec_percentFormat w f hf),
    decValue_onefrac, digitsVal_natDigitsBE]

theorem mem_insertLe {α : Type} (le : α → α → Bool) (x : α) :
    ∀ (l : List α) (z : α), z ∈ insertLe le x l → z = x ∨ z ∈ l := by
  intro l
  induction l with
  | nil => intro z hz; simpa [insertLe] using hz
  | cons y ys ih =>
    intro z hz
    rw [insertLe] at hz
    split at hz
    · exact List.mem_cons.mp hz
    · rcases List.mem_cons.mp hz with rfl | hz'
      · exact Or.inr (List.mem_cons_self _ _)
      · rcases ih z hz' with h | h
        · exact Or.inl h
        · exact Or.inr (List.mem_cons_of_mem _ h)

theorem mem_sortLe {α : Type} (le : α → α → Bool) :
    ∀ (l : List α) (z : α), z ∈ sortLe le l → z ∈ l := by
  intro l
  induction l with
  | nil => intro z hz; simp [sortLe] at hz
  | cons x xs ih =>
    intro z hz
    rw [sortLe] at hz
    rcases mem_insertLe le x _ z hz with rfl | h
    · exact List.mem_cons_self _ _
    · exact List.mem_cons_of_mem _ (ih z h)

theorem pairwise_insertLe {α : Type} {le : α → α → Bool} {P : α → Prop}
    (htot : ∀ a b, P a → P b → le a b = true ∨ le b a = true)
    (htrans : ∀ a b c, P a → P b → P c → le a b = true → le b c = true → le a c = true)
    (x : α) (hx : P x) :
    ∀ l : List α, (∀ z ∈ l, P z) → l.Pairwise (fun a b => le a b = true) →
      (insertLe le x l).Pairwise (fun a b => le a b = true) := by
  intro l
  induction l with
  | nil => intro _ _; simp [insertLe]
  | cons y ys ih =>
    intro hP hp
    rw [insertLe]
    rcases List.pairwise_cons.mp hp with ⟨hy, hys⟩
    split
    · rename_i hxy
      refine List.pairwise_cons.mpr ⟨?_, hp⟩
      intro z hz
      rcases List.mem_cons.mp hz with rfl | hz'
      · exact hxy
      · exact htrans x y z hx (hP y (by simp)) (hP z (by simp [hz'])) hxy (hy z hz')
    · rename_i hxy
      have hyx : le y x = true := by
        rcases htot x y hx (hP y (by simp)) with h | h
        · exact absurd h hxy
        · exact h
      refine List.pairwise_cons.mpr ⟨?_, ih (fun z hz => hP z (by simp [hz])) hys⟩
      intro z hz
      rcases mem_insertLe le x _ z hz with rfl | hz'
      · exact hyx
      · exact hy z hz'

theorem pairwise_sortLe {α : Type} {le : α → α → Bool} {P : α → Prop}
    (htot : ∀ a b, P a → P b → le a b = true ∨ le b a = true)
    (htrans : ∀ a b c, P a → P b → P c → le a b = true → le b c = true → le a c = true) :
    ∀ l : List α, (∀ z ∈ l, P z) → (sortLe le l).Pairwise (fun a b => le a b = true) := by
  intro l
  induction l with
  | nil => intro _; simp [sortLe]
  | cons x xs ih =>
    intro hP
    rw [sortLe]
    exact pairwise_insertLe htot htrans x (hP x (by simp)) (sortLe le xs)
      (fun z hz => hP z (List.mem_cons_of_mem _ (mem_sortLe le xs z hz)))
      (ih (fun z hz => hP z (by simp [hz])))

theorem leDesc_eq_true_iff {ob : OrderField} {a b : Recommendation}
    (ha : (numericFor a ob).isSome) (hb : (numericFor b ob).isSome) :
    (leDesc ob a b = true) ↔ keyD ob b ≤ keyD ob a := by
  obtain ⟨va, hva⟩ := Option.isSome_iff_exists.mp ha
  obtain ⟨vb, hvb⟩ := Option.isSome_iff_exists.mp hb
  simp [leDesc, cmpDesc, hva, hvb, keyD, sub_nonpos]

theorem leDesc_total (ob : OrderField) (a b : Recommendation)
    (ha : (numericFor a ob).isSome) (hb : (numericFor b ob).isSome) :
    leDesc ob a b = true ∨ leDesc ob b a = true := by
  rcases le_total (keyD ob b) (keyD ob a) with h | h
  · exact Or.inl ((leDesc_eq_true_iff ha hb).mpr h)
  · exact Or.inr ((leDesc_eq_true_iff hb ha).mpr h)

theorem leDesc_trans (ob : OrderField) (a b c : Recommendation)
    (ha : (numericFor a ob).isSome) (hb : (numericFor b ob).isSome)
    (hc : (numericFor c ob).isSome)
    (h1 : leDesc ob a b = true) (h2 : leDesc ob b c = true) : leDesc ob a c = true :=
  (leDesc_eq_true_iff ha hc).mpr
    (le_trans ((leDesc_eq_true_iff hb hc).mp h2) ((leDesc_eq_true_iff ha hb).mp h1))

theorem numericFor_top (r : Recommendation) (t : ℕ) (ob : OrderField) :
    numericFor { r with top := t } ob = numericFor r ob := by
  cases ob <;> rfl

theorem keyD_top (ob : OrderField) (r : Recommendation) (t : ℕ) :
    keyD ob { r with top := t } = keyD ob r := by
  simp [keyD, numericFor_top]

theorem assignTop_map_keyD (ob : OrderField) :
    ∀ (i : ℕ) (l : List Recommendation),
      (assignTop i l).map (keyD ob) = l.map (keyD ob) := by
  intro i l
  induction l generalizing i with
  | nil => rfl
  | cons r rs ih => simp [assignTop, keyD_top, ih]

theorem assignTop_length :
    ∀ (i : ℕ) (l : List Recommendation), (assignTop i l).length = l.length := by
  intro i l
  induction l generalizing i with
  | nil => rfl
  | cons r rs ih => simp [assignTop, ih]

theorem assignTop_map_top :
    ∀ (i : ℕ) (l : List Recommendation),
      (assignTop i l).map (fun r => r.top) = List.range' i l.length := by
  intro i l
  induction l generalizing i with
  | nil => rfl
  | cons r rs ih => simp [assignTop, ih, List.range']

theorem mem_assignTop :
    ∀ (i : ℕ) (l : List Recommendation) (z : Recommendation), z ∈ assignTop i l →
      ∃ r ∈ l, ∃ j : ℕ, z = { r with top := j } := by
  intro i l
  induction l generalizing i with
  | nil => intro z hz; simp [assignTop] at hz
  | cons r rs ih =>
    intro z hz
    rw [assignTop] at hz
    rcases List.mem_cons.mp hz with rfl | hz'
    · exact ⟨r, by simp, i, rfl⟩
    · obtain ⟨r', hr', j, rfl⟩ := ih (i + 1) z hz'
      exact ⟨r', by simp [hr'], j, rfl⟩

theorem denseTop_assignTop (l : List Recommendation) : denseTop (assignTop 1 l) := by
  rw [denseTop, assignTop_map_top, assignTop_length]

theorem isSome_of_mem_assignTop (ob : OrderField) (i : ℕ) (l : List Recommendation)
    (h : ∀ r ∈ l, (numericFor r ob).isSome) :
    ∀ z ∈ assignTop i l, (numericFor z ob).isSome := by
  intro z hz
  obtain ⟨r, hr, j, rfl⟩ := mem_assignTop i l z hz
  simpa [numericFor_top] using h r hr

theorem sorted_pipeline (ob : OrderField) (l : List Recommendation) (n : ℕ)
    (h : ∀ r ∈ l, (numericFor r ob).isSome) :
    sortedKeysDesc ob (assignTop 1 ((sortLe (leDesc ob) l).take n)) := by
  have hp := pairwise_sortLe (P := fun r => (numericFor r ob).isSome)
    (leDesc_total ob) (leDesc_trans ob) l h
  have hp2 : (sortLe (leDesc ob) l).Pairwise (fun a b => keyD ob b ≤ keyD ob a) :=
    List.Pairwise.imp_of_mem
      (fun ha hb hab =>
        (leDesc_eq_true_iff (h _ (mem_sortLe _ _ _ ha)) (h _ (mem_sortLe _ _ _ hb))).mp hab)
      hp
  have hp3 : ((sortLe (leDesc ob) l).take n).Pairwise (fun a b => keyD ob b ≤ keyD ob a) :=
    hp2.sublist (List.take_sublist n _)
  rw [sortedKeysDesc, assignTop_map_keyD, List.chain'_map]
  exact hp3.chain'

theorem sorted_pipeline_all (ob : OrderField) (l : List Recommendation)
    (h : ∀ r ∈ l, (numericFor r ob).isSome) :
    sortedKeysDesc ob (assignTop 1 (sortLe (leDesc ob) l)) := by
  have := sorted_pipeline ob l (sortLe (leDesc ob) l).length h
  rwa [List.take_length] at this

theorem getParam_setParam_same (r : PlantData) (p : Param) (v : ParameterValue) :
    getParam (setParam r p v) p = v := by
  cases p <;> rfl

theorem getParam_setParam_other (r : PlantData) (p q : Param) (v : ParameterValue)
    (h : q ≠ p) : getParam (setParam r p v) q = getParam r q := by
  cases p <;> cases q <;> first | rfl | exact absurd rfl h

theorem setParam_arc (r : PlantData) (p : Param) (v : ParameterValue) :
    (setParam r p v).arc = r.arc := by cases p <;> rfl

theorem setParam_description (r : PlantData) (p : Param) (v : ParameterValue) :
    (setParam r p v).description = r.description := by cases p <;> rfl

theorem setParam_year (r : PlantData) (p : Param) (v : ParameterValue) :
    (setParam r p v).year = r.year := by cases p <;> rfl

theorem setParam_top (r : PlantData) (p : Param) (v : ParameterValue) :
    (setParam r p v).top = r.top := by cases p <;> rfl

theorem truncate_eq (s : String) :
    truncate s = if s.length ≤ 15 then s else (s.take 15).push '…' := by
  simp only [truncate]
  split_ifs <;> first | omega | rfl

theorem chartAux_length (p : Param) :
    ∀ (i : ℕ) (fd : List PlantData), (chartAux p i fd).length = fd.length := by
  intro i fd
  induction fd generalizing i with
  | nil => rfl
  | cons item rest ih => simp [chartAux, ih]

theorem chartAux_get (p : Param) :
    ∀ (fd : List PlantData) (i j : ℕ) (h : j < fd.length)
      (h2 : j < (chartAux p i fd).length),
      (chartAux p i fd).get ⟨j, h2⟩ = chartPoint p (i + j) (fd.get ⟨j, h⟩) := by
  intro fd
  induction fd with
  | nil => intro i j h _; exact absurd h (by simp)
  | cons item rest ih =>
    intro i j h h2
    cases j with
    | zero => rfl
    | succ j =>
      have h' : j < rest.length := by simpa using h
      have h2' : j < (chartAux p (i + 1) rest).length := by
        rw [chartAux_length]; exact h'
      have := ih (i + 1) j h' h2'
      simp only [chartAux, List.get_cons_succ, this]
      congr 1
      omega

/-- A concrete backend row with currency- and percent-formatted fields. -/
def sampleRec : Recommendation where
  arc := "2.1"
  description := "sample"
  avgSavings := "$1,234"
  avgCost := "$1,234"
  avgPayback := .num 1
  implementationRate := "12.5%"
  recommended := 10
  top := 0

/-- A second concrete row, larger in every numeric field. -/
def sampleRec2 : Recommendation where
  arc := "2.2"
  description := "sample2"
  avgSavings := "$5,678"
  avgCost := "$5,678"
  avgPayback := .num 2
  implementationRate := "99.5%"
  recommended := 20
  top := 0

/-- C4: the numeric-coercion functions round-trip the known currency and
percentage formats: the string rendering 1234 in currency format coerces
to 1234 and the string rendering 12.5 percent coerces to 12.5, both
through the sort-value function `numericFor` (on the currency columns and
on the implementation-rate column) and through the chart-value function
`formatValue`. -/
theorem c4_coercion_round_trip :
    numericFor sampleRec .avgSavings = some (1234 : ℚ) ∧
    numericFor sampleRec .avgCost = some (1234 : ℚ) ∧
    numericFor sampleRec .implRate = some (12.5 : ℚ) ∧
    formatValue (.str "$1,234") = .num (1234 : ℚ) ∧
    formatValue (.str "12.5%") = .num (12.5 : ℚ) := by
  have e1 : jsParseFloat (stripDollarComma "$1,234") = some (1234 : ℚ) := by
    rw [jsParseFloat_eq_some
      (by decide : parseDec (stripDollarComma "$1,234") = some (false, [1, 2, 3, 4], []))]
    norm_num [decValue, digitsVal, fracVal]
  have e2 : jsParseFloat "12.5%" = some (12.5 : ℚ) := by
    rw [jsParseFloat_eq_some (by decide : parseDec "12.5%" = some (false, [1, 2], [5]))]
    norm_num [decValue, digitsVal, fracVal]
  have e3 : jsParseFloat (stripDollarCommaPercent "$1,234") = some (1234 : ℚ) := by
    rw [jsParseFloat_eq_some
      (by decide : parseDec (stripDollarCommaPercent "$1,234") = some (false, [1, 2, 3, 4], []))]
    norm_num [decValue, digitsVal, fracVal]
  have e4 : jsParseFloat (stripDollarCommaPercent "12.5%") = some (12.5 : ℚ) := by
    rw [jsParseFloat_eq_some
      (by decide : parseDec (stripDollarCommaPercent "12.5%") = some (false, [1, 2], [5]))]
    norm_num [decValue, digitsVal, fracVal]
  refine ⟨e1, e1, e2, ?_, ?_⟩
  · simp [formatValue, e3]
  · simp [formatValue, e4]

/-- The selected field of `r` encodes the numeric value `v` in the format
the spec and the source comments give for that field: “$#,###” for the
currency columns, “##.#%” for the implementation rate, a plain number for
payback and the recommendation count. -/
def encodesAs (r : Recommendation) : OrderField → ℚ → Prop
  | .avgSavings, v => ∃ n : ℕ, r.avgSavings = currencyFormat n ∧ v = n
  | .avgCost, v => ∃ n : ℕ, r.avgCost = currencyFormat n ∧ v = n
  | .avgPayback, v => r.avgPayback = .num v
  | .implRate, v =>
    ∃ w f : ℕ, f < 10 ∧ r.implementationRate = percentFormat w f ∧ v = w + (f : ℚ) / 10
  | .recommended, v => r.recommended = v

theorem numericFor_encodesAs {r : Recommendation} {fld : OrderField} {v : ℚ}
    (h : encodesAs r fld v) : numericFor r fld = some v := by
  cases fld with
  | avgSavings =>
    obtain ⟨n, hn, rfl⟩ := h
    simpa [numericFor, hn] using jsParseFloat_currency n
  | avgCost =>
    obtain ⟨n, hn, rfl⟩ := h
    simpa [numericFor, hn] using jsParseFloat_currency n
  | avgPayback =>
    have h' : r.avgPayback = .num v := h
    simp [numericFor, h']
  | implRate =>
    obtain ⟨w, f, hf, hn, rfl⟩ := h
    simpa [numericFor, hn] using jsParseFloat_percent w f hf
  | recommended =>
    have h' : r.recommended = v := h
    simp [numericFor, h']

/-- C5: string coercion is monotonic under the sorting comparator: when the
selected fields of two records encode `x` and `y` in the same format and
`x ≤ y`, then `numericFor` yields exactly `x` and `y` (so the first is at
most the second), and the descending comparator
`numericFor(b) - numericFor(a)` is non-negative on the pair, ordering the
records consistently with their encoded values. -/
theorem c5_coercion_monotone (fld : OrderField) (r1 r2 : Recommendation) (x y : ℚ)
    (h1 : encodesAs r1 fld x) (h2 : encodesAs r2 fld y) (hxy : x ≤ y) :
    numericFor r1 fld = some x ∧ numericFor r2 fld = some y ∧
    0 ≤ cmpDesc fld r1 r2 := by
  have e1 := numericFor_encodesAs h1
  have e2 := numericFor_encodesAs h2
  refine ⟨e1, e2, ?_⟩
  simp only [cmpDesc, e1, e2]
  linarith

theorem c5_coercion_monotone_witness :
    numericFor sampleRec .avgSavings = some (1234 : ℚ) ∧
    numericFor sampleRec2 .avgSavings = some (5678 : ℚ) ∧
    0 ≤ cmpDesc .avgSavings sampleRec sampleRec2 :=
  c5_coercion_monotone .avgSavings sampleRec sampleRec2 1234 5678
    ⟨1234, by decide, by norm_num⟩ ⟨5678, by decide, by norm_num⟩ (by norm_num)

/-- C7: the aggregates query carries `center`, `state`, `fiscal_year` and
`arc` exactly when the corresponding filter value is non-empty, with the
fiscal year sent as the operator concatenated with the year and the arc
code trimmed. -/
theorem c7_query_construction (s : AppState) :
    (buildQuery s).lookup "center" = (if s.center = "" then none else some s.center) ∧
    (buildQuery s).lookup "state" = (if s.stateUS = "" then none else some s.stateUS) ∧
    (buildQuery s).lookup "fiscal_year" =
      (if s.yearVal = "" then none else some (s.yearOp ++ s.yearVal)) ∧
    (buildQuery s).lookup "arc" = (if s.arcCode = "" then none else some s.arcCode.trim) := by
  unfold buildQuery
  refine ⟨?_, ?_, ?_, ?_⟩ <;> split_ifs <;> simp_all [List.lookup]

/-- C8: the Arc Code filter value does not influence the client-side result
set: two searches that differ only in `arcCode` and receive the same
backend outcome produce states that differ only in the stored `arcCode`
(in particular the filtered, sorted, ranked list, the rows and the page are
identical); `arcCode` reaches only the query string. -/
theorem c8_arc_noninterference (s : AppState) (a1 a2 : String) (o : AggOutcome) :
    searchStep o { s with arcCode := a1 } =
      { searchStep o { s with arcCode := a2 } with arcCode := a1 } ∧
    (searchStep o { s with arcCode := a1 }).filtered =
      (searchStep o { s with arcCode := a2 }).filtered ∧
    (searchStep o { s with arcCode := a1 }).rows =
      (searchStep o { s with arcCode := a2 }).rows ∧
    (searchStep o { s with arcCode := a1 }).page =
      (searchStep o { s with arcCode := a2 }).page := by
  have key : searchStep o { s with arcCode := a1 } =
      { searchStep o { s with arcCode := a2 } with arcCode := a1 } := by
    cases s
    cases o with
    | thrown m => rfl
    | response succ e data => cases succ <;> rfl
  refine ⟨key, ?_, ?_, ?_⟩ <;> rw [key]

/-- C9: pagination is always well-defined: for a positive page size the
page count is at least 1 (also on an empty list), the displayed slice has
at most `pageSize` records, and the slice of an empty list is empty. -/
theorem c9_pagination (l : List Recommendation) (page pageSize : ℕ) (h : 0 < pageSize) :
    1 ≤ totalPages l.length pageSize ∧
    (pageSlice l page pageSize).length ≤ pageSize ∧
    (l = [] → pageSlice l page pageSize = []) := by
  refine ⟨?_, ?_, ?_⟩
  · unfold totalPages
    dsimp only
    split_ifs with ht
    · exact le_refl 1
    · exact Nat.one_le_iff_ne_zero.mpr ht
  · simp only [pageSlice, List.length_take]
    exact Nat.min_le_left _ _
  · rintro rfl
    simp [pageSlice]

theorem c9_pagination_witness :
    1 ≤ totalPages ([] : List Recommendation).length 10 ∧
    (pageSlice [] 1 10).length ≤ 10 ∧
    (([] : List Recommendation) = [] → pageSlice [] 1 10 = []) :=
  c9_pagination [] 1 10 (by norm_num)

theorem fetchAggStep_showTop (o : AggOutcome) (s : AppState) :
    (fetchAggStep o s).showTop = s.showTop := by
  cases o with
  | thrown m => rfl
  | response succ e data =>
    simp only [fetchAggStep]
    split_ifs <;> rfl

theorem clientTransform_length (s : AppState) (l : List Recommendation) :
    (clientTransform s l).length ≤ s.showTop := by
  simp only [clientTransform, assignTop_length, List.length_take]
  exact Nat.min_le_left _ _

/-- C10: after a search completes (whatever the fetch outcome), the
filtered list has been truncated to at most `showTop` records and the page
is reset to 1. -/
theorem c10_show_top_and_page (o : AggOutcome) (s : AppState) :
    (searchStep o s).filtered.length ≤ s.showTop ∧ (searchStep o s).page = 1 := by
  constructor
  · have h := clientTransform_length (fetchAggStep o s) (fetchAggStep o s).filtered
    rw [fetchAggStep_showTop] at h
    exact h
  · rfl

/-- C6: the chart-data transform keeps the length, gives element `i` the
id `i+1`, truncates the description to at most 15 characters (appending an
ellipsis beyond that), replaces the selected parameter by the parsed
numeric value of the record's original field, and keeps every other field
of the record. -/
theorem c6_chart_transform (fd : List PlantData) (p : Param) :
    (chartDataF fd p).length = fd.length ∧
    ∀ (i : ℕ) (h : i < fd.length) (h2 : i < (chartDataF fd p).length),
      ((chartDataF fd p).get ⟨i, h2⟩).id = i + 1 ∧
      ((chartDataF fd p).get ⟨i, h2⟩).shortDescription =
        (if (fd.get ⟨i, h⟩).description.length ≤ 15 then (fd.get ⟨i, h⟩).description
         else ((fd.get ⟨i, h⟩).description.take 15).push '…') ∧
      getParam ((chartDataF fd p).get ⟨i, h2⟩).toPlantData p =
        formatValue (getParam (fd.get ⟨i, h⟩) p) ∧
      (∀ q : Param, q ≠ p →
        getParam ((chartDataF fd p).get ⟨i, h2⟩).toPlantData q =
          getParam (fd.get ⟨i, h⟩) q) ∧
      ((chartDataF fd p).get ⟨i, h2⟩).arc = (fd.get ⟨i, h⟩).arc ∧
      ((chartDataF fd p).get ⟨i, h2⟩).description = (fd.get ⟨i, h⟩).description ∧
      ((chartDataF fd p).get ⟨i, h2⟩).year = (fd.get ⟨i, h⟩).year ∧
      ((chartDataF fd p).get ⟨i, h2⟩).top = (fd.get ⟨i, h⟩).top := by
  refine ⟨chartAux_length p 0 fd, ?_⟩
  intro i h h2
  have hg : (chartDataF fd p).get ⟨i, h2⟩ = chartPoint p (0 + i) (fd.get ⟨i, h⟩) :=
    chartAux_get p fd 0 i h h2
  rw [hg]
  refine ⟨by simp [chartPoint], by simp [chartPoint, truncate_eq],
    by simp [chartPoint, getParam_setParam_same], ?_, ?_, ?_, ?_, ?_⟩
  · intro q hq
    simp [chartPoint, getParam_setParam_other _ _ _ _ hq]
  · simp [chartPoint, setParam_arc]
  · simp [chartPoint, setParam_description]
  · simp [chartPoint, setParam_year]
  · simp [chartPoint, setParam_top]

/-- A concrete chart input record. -/
def samplePlant : PlantData where
  arc := "2.1"
  description := "a long description that needs truncation"
  year := 2020
  top := 1
  avgSavings := .str "$1,234"
  avgCost := .str "$100"
  avgPayback := .num 1
  implementationRate := .str "12.5%"
  recommended := .num 10

theorem c6_chart_transform_witness :
    (chartDataF [samplePlant] Param.avgSavings).length = [samplePlant].length ∧
    ((chartDataF [samplePlant] Param.avgSavings).get ⟨0, by decide⟩).id = 0 + 1 :=
  ⟨(c6_chart_transform [samplePlant] Param.avgSavings).1,
    ((c6_chart_transform [samplePlant] Param.avgSavings).2 0 (by decide) (by decide)).1⟩

/-- C3: an empty input dataset gives an empty derived chart dataset and
the no-data display state; and any rendered chart view carries a nonempty
point list, so the average over it divides by a positive count — an empty
dataset never reaches the average computation's display. -/
theorem c3_empty_dataset (p : Param) (yf : YearFilter) (selYear : ℕ) (rg : YearRange) :
    chartDataF (filteredDataOf [] yf selYear rg) p = [] ∧
    vizRender [] p yf selYear rg = VizView.noData ∧
    (∀ (data : List PlantData) (pts : List ChartPoint) (hv av : Option ℚ),
      vizRender data p yf selYear rg = VizView.chart pts hv av →
        pts ≠ [] ∧ av = avgValue pts p) := by
  refine ⟨by simp [filteredDataOf, chartDataF, chartAux], by simp [vizRender], ?_⟩
  intro data pts hv av heq
  simp only [vizRender] at heq
  split_ifs at heq with h1 h2
  injection heq with hpts hhv hav
  subst hpts
  subst hhv
  subst hav
  constructor
  · intro hnil
    have hlen := chartAux_length p 0 (filteredDataOf data yf selYear rg)
    rw [show chartDataF (filteredDataOf data yf selYear rg) p
          = chartAux p 0 (filteredDataOf data yf selYear rg) from rfl] at hnil
    rw [hnil] at hlen
    exact h2 (List.length_eq_zero.mp hlen.symm)
  · rfl

/-- C2 counterexample: a thrown error in the filter-options fetch is
swallowed by the empty catch: its message is not stored in the error state
and the UI is not replaced by the error text. -/
theorem c2_counterexample :
    (optionsFetchStep (OptionsOutcome.thrown "network down") initState).err = none ∧
    renderOf (optionsFetchStep (OptionsOutcome.thrown "network down") initState) =
      Render.mainView ∧
    renderOf (optionsFetchStep (OptionsOutcome.thrown "network down") initState) ≠
      Render.errorText "network down" := by
  exact ⟨rfl, rfl, by simp [renderOf, optionsFetchStep, initState]⟩

/-- C2 (amended): in the aggregates fetch every error — thrown, or an
application-level `success:false` (whose message falls back to
"API error") — is caught, stored in the error state and rendered as the
error text in place of the UI; the filter-options fetch instead swallows
thrown errors silently, leaving the state unchanged. -/
theorem c2_amended (s : AppState) (m : String) (e : Option String)
    (data : List Recommendation) :
    (fetchAggStep (AggOutcome.thrown m) s).err = some m ∧
    renderOf (fetchAggStep (AggOutcome.thrown m) s) = Render.errorText m ∧
    (fetchAggStep (AggOutcome.response false e data) s).err = some (jsOr e "API error") ∧
    renderOf (fetchAggStep (AggOutcome.response false e data) s) =
      Render.errorText (jsOr e "API error") ∧
    optionsFetchStep (OptionsOutcome.thrown m) s = s := by
  exact ⟨rfl, rfl, rfl, rfl, rfl⟩

/-- A row whose implementation rate is high but whose cost is low. -/
def recA : Recommendation where
  arc := "A1"
  description := "a"
  avgSavings := "$1"
  avgCost := "$1"
  avgPayback := .num 1
  implementationRate := "90%"
  recommended := 20
  top := 0

/-- A row whose implementation rate is low but whose cost is high. -/
def recB : Recommendation where
  arc := "B2"
  description := "b"
  avgSavings := "$2"
  avgCost := "$2"
  avgPayback := .num 1
  implementationRate := "10%"
  recommended := 20
  top := 0

theorem numericFor_recA_implRate : numericFor recA .implRate = some (90 : ℚ) := by
  rw [show numericFor recA .implRate = jsParseFloat "90%" from rfl,
    jsParseFloat_eq_some (by decide : parseDec "90%" = some (false, [9, 0], []))]
  norm_num [decValue, digitsVal, fracVal]

theorem numericFor_recB_implRate : numericFor recB .implRate = some (10 : ℚ) := by
  rw [show numericFor recB .implRate = jsParseFloat "10%" from rfl,
    jsParseFloat_eq_some (by decide : parseDec "10%" = some (false, [1, 0], []))]
  norm_num [decValue, digitsVal, fracVal]

theorem numericFor_recA_avgCost : numericFor recA .avgCost = some (1 : ℚ) := by
  rw [show numericFor recA .avgCost = jsParseFloat (stripDollarComma "$1") from rfl,
    jsParseFloat_eq_some (by decide : parseDec (stripDollarComma "$1") = some (false, [1], []))]
  norm_num [decValue, digitsVal, fracVal]

theorem numericFor_recB_avgCost : numericFor recB .avgCost = some (2 : ℚ) := by
  rw [show numericFor recB .avgCost = jsParseFloat (stripDollarComma "$2") from rfl,
    jsParseFloat_eq_some (by decide : parseDec (stripDollarComma "$2") = some (false, [2], []))]
  norm_num [decValue, digitsVal, fracVal]

/-- C1 counterexample: fetch two rows while sorted by implementation rate,
then change the sort field to Avg Cost via the Order By dropdown.  No
recomputation runs: the list stays ranked and sorted by the old field, so
the rank invariant fails relative to the currently selected sort field. -/
theorem c1_counterexample :
    ¬ rankInvariant
      (setOrderStep OrderField.avgCost
        (fetchAggStep (AggOutcome.response true none [recA, recB]) initState)).orderBy
      (setOrderStep OrderField.avgCost
        (fetchAggStep (AggOutcome.response true none [recA, recB]) initState)).filtered := by
  have hle : leDesc OrderField.implRate recA recB = true := by
    simp only [leDesc, cmpDesc, numericFor_recA_implRate, numericFor_recB_implRate,
      decide_eq_true_eq]
    norm_num
  have hsort : sortLe (leDesc OrderField.implRate) [recA, recB] = [recA, recB] := by
    simp [sortLe, insertLe, hle]
  have hfil : (setOrderStep OrderField.avgCost
      (fetchAggStep (AggOutcome.response true none [recA, recB]) initState)).filtered
      = [{ recA with top := 1 }, { recB with top := 2 }] := by
    simp [setOrderStep, fetchAggStep, initState, hsort, assignTop]
  intro hinv
  have hs := hinv.2
  rw [show (setOrderStep OrderField.avgCost
      (fetchAggStep (AggOutcome.response true none [recA, recB]) initState)).orderBy
      = OrderField.avgCost from rfl, hfil] at hs
  simp only [sortedKeysDesc, List.map_cons, List.map_nil, keyD_top,
    List.chain'_cons, List.chain'_singleton, and_true] at hs
  simp only [keyD, numericFor_recA_avgCost, numericFor_recB_avgCost,
    Option.getD_some] at hs
  norm_num at hs

/-- C1 (amended): after a successful fetch and after a search whose rows
all parse under the current sort field, the rank field `top` of the
displayed list is a dense contiguous `1..N` sequence in list order and the
list is sorted descending by the currently selected sort field.  (A
sort-field change alone, or a filter reset — which restores the last
fetched rows while resetting the selection — does not recompute the
ranking, so there the invariant only holds relative to the field used at
the last fetch.) -/
theorem c1_rank_invariant (s : AppState) (e : Option String)
    (data : List Recommendation)
    (h : ∀ r ∈ data, (numericFor r s.orderBy).isSome) :
    rankInvariant (fetchAggStep (AggOutcome.response true e data) s).orderBy
      (fetchAggStep (AggOutcome.response true e data) s).filtered ∧
    rankInvariant (searchStep (AggOutcome.response true e data) s).orderBy
      (searchStep (AggOutcome.response true e data) s).filtered := by
  constructor
  · exact ⟨denseTop_assignTop _, sorted_pipeline_all s.orderBy data h⟩
  · refine ⟨denseTop_assignTop _, ?_⟩
    have hsub : ∀ r ∈ ((((assignTop 1 (sortLe (leDesc s.orderBy) data)).filter
          (fun r => decide ((s.minReco : ℚ) ≤ r.recommended))).filter
          (fun r =>
            match s.minSavings with
            | none => true
            | some m =>
              match jsParseFloat (stripDollarComma r.avgSavings) with
              | some v => decide (m ≤ v)
              | none => false)).filter
          (fun r =>
            match s.minCost with
            | none => true
            | some m =>
              match jsParseFloat (stripDollarComma r.avgCost) with
              | some v => decide (m ≤ v)
              | none => false)),
        (numericFor r s.orderBy).isSome := by
      intro r hr
      have hr1 : r ∈ assignTop 1 (sortLe (leDesc s.orderBy) data) :=
        List.mem_of_mem_filter (List.mem_of_mem_filter (List.mem_of_mem_filter hr))
      exact isSome_of_mem_assignTop s.orderBy 1 _
        (fun z hz => h z (mem_sortLe _ _ _ hz)) r hr1
    exact sorted_pipeline s.orderBy _ s.showTop hsub

theorem c1_rank_invariant_witness :
    rankInvariant (fetchAggStep (AggOutcome.response true none [recA, recB]) initState).orderBy
      (fetchAggStep (AggOutcome.response true none [recA, recB]) initState).filtered ∧
    rankInvariant (searchStep (AggOutcome.response true none [recA, recB]) initState).orderBy
      (searchStep (AggOutcome.response true none [recA, recB]) initState).filtered :=
  c1_rank_invariant initState none [recA, recB] (by decide)
